import Mathlib

/-!
Verification of the SQL Verification & Auto-Repair Engine of the Text2SQL
repository (services/api/app/semantic/repair.py, sql_guard.py, coverage.py
and routes/test.py), against its natural-language specification.

The Python sources are embedded shallowly: pure text manipulation is
translated to executable Lean functions over `String` / `List Char`;
the external SQL parser (sqlglot, explicitly out of scope in the spec,
section 1 and 6) is abstracted as a function `String → Option SqlAst`
over an AST record exposing exactly the observations the Python code
makes on sqlglot trees; Python exceptions become `Except`/`Option`
results.  Python regular expressions used by the code are implemented as
explicit character scanners with the same matching semantics (word
boundaries, case-insensitivity, greedy repetition) on the ASCII inputs
involved.
-/

namespace Text2SQL

/-! ## Character and string helpers (Python `re`, `str` semantics) -/

/-- Python regex word character `\w` (ASCII fragment): letter, digit or underscore. -/
def isWordChar (c : Char) : Bool :=
  (c ≥ 'a' && c ≤ 'z') || (c ≥ 'A' && c ≤ 'Z') || (c ≥ '0' && c ≤ '9') || c = '_'

/-- Python regex whitespace `\s` (ASCII fragment). -/
def isSpaceChar (c : Char) : Bool :=
  c = ' ' || c = '\t' || c = '\n' || c = '\x0d' || c = '\x0b' || c = '\x0c'

/-- ASCII decimal digit. -/
def isDigitChar (c : Char) : Bool :=
  c ≥ '0' && c ≤ '9'

/-- ASCII letter. -/
def isLetterChar (c : Char) : Bool :=
  (c ≥ 'a' && c ≤ 'z') || (c ≥ 'A' && c ≤ 'Z')

/-- Case-insensitive character comparison (ASCII), as under Python `re.I`. -/
def ciEq (a b : Char) : Bool :=
  a.toLower = b.toLower

/-- Case-insensitive match of a literal pattern at the head of the input,
returning the rest of the input on success. -/
def matchCI : List Char → List Char → Option (List Char)
  | [], rest => some rest
  | _ :: _, [] => none
  | p :: ps, c :: cs => if ciEq c p then matchCI ps cs else none

/-- Match `\s+`: at least one whitespace character, greedily. -/
def matchSpaces1 : List Char → Option (List Char)
  | [] => none
  | c :: cs => if isSpaceChar c then some (cs.dropWhile isSpaceChar) else none

/-- Match `\d+` greedily, returning the digits read and the rest. -/
def matchDigits1 (l : List Char) : Option (List Char × List Char) :=
  let ds := l.takeWhile isDigitChar
  if ds.isEmpty then none else some (ds, l.drop ds.length)

/-- A word boundary `\b` holds before the current position given the previous
character (patterns below always continue with a word character). -/
def boundary (prev : Option Char) : Bool :=
  match prev with
  | none => true
  | some c => !isWordChar c

/-- `\b` between the last consumed character (a word character in all uses
below) and the remaining input: end of input or a non-word character. -/
def boundaryAfter : List Char → Bool
  | [] => true
  | c :: _ => !isWordChar c

/-- Python `str.rstrip()` on the underlying characters. -/
def rstripWs (s : String) : String :=
  ⟨(s.data.reverse.dropWhile isSpaceChar).reverse⟩

/-- Python `str.rstrip(";")`. -/
def rstripSemi (s : String) : String :=
  ⟨(s.data.reverse.dropWhile (· = ';')).reverse⟩

/-- Python `str.strip()` on the underlying characters. -/
def stripWs (s : String) : String :=
  ⟨((s.data.dropWhile isSpaceChar).reverse.dropWhile isSpaceChar).reverse⟩

/-- Python `str.lower()` (ASCII fragment). -/
def lowerStr (s : String) : String :=
  ⟨s.data.map Char.toLower⟩

/-- Python substring containment (`needle in hay`). -/
def containsSub (needle hay : String) : Bool :=
  go needle.data hay.data
where
  go (n : List Char) : List Char → Bool
    | [] => n.isPrefixOf []
    | c :: cs => n.isPrefixOf (c :: cs) || go n cs

/-- Order-preserving de-duplication, as Python `dict.fromkeys` /
the seen-set loop in `lint_sql`. -/
def uniqFirst (l : List String) : List String :=
  go l []
where
  go : List String → List String → List String
    | [], acc => acc
    | x :: xs, acc => if x ∈ acc then go xs acc else go xs (acc ++ [x])

/-- Worker for `natToDigits` (structural in the fuel, which the wrapper makes
large enough for every input). -/
def natToDigitsGo : Nat → Nat → List Char → List Char
  | 0, _, acc => acc
  | fuel + 1, n, acc =>
    if n < 10 then Char.ofNat (48 + n) :: acc
    else natToDigitsGo fuel (n / 10) (Char.ofNat (48 + n % 10) :: acc)

/-- Decimal rendering of a natural number, as Python string formatting
f-strings use for a non-negative `int`. -/
def natToDigits (n : Nat) : List Char :=
  natToDigitsGo (n + 1) n []

/-- Lexicographic string comparison by code points, as Python `<=` on `str`. -/
def strLeB (a b : String) : Bool :=
  go a.data b.data
where
  go : List Char → List Char → Bool
    | [], _ => true
    | _ :: _, [] => false
    | x :: xs, y :: ys =>
      if x.val < y.val then true
      else if x.val = y.val then go xs ys
      else false

/-- Insertion sort with the Python string order (models `sorted`). -/
def sortStrings (l : List String) : List String :=
  go l
where
  ins (x : String) : List String → List String
    | [] => [x]
    | y :: ys => if strLeB x y then x :: y :: ys else y :: ins x ys
  go : List String → List String
    | [] => []
    | x :: xs => ins x (go xs)

/-! ## The `\blimit\s+\d+\b` search of `_enforce_limit` (repair.py line 144)
and `_LIMIT_RE` (sql_guard.py line 13). -/

/-- Attempt the pattern `\blimit\s+\d+\b` at the current position. -/
def limitPatAt (prev : Option Char) (l : List Char) : Bool :=
  boundary prev &&
    match matchCI "limit".data l with
    | none => false
    | some r1 =>
      match matchSpaces1 r1 with
      | none => false
      | some r2 =>
        match matchDigits1 r2 with
        | none => false
        | some (_, r3) => boundaryAfter r3

/-- Scan for `\blimit\s+\d+\b` anywhere (Python `re.search`, flags `re.I`). -/
def hasLimitNumAux (prev : Option Char) : List Char → Bool
  | [] => false
  | c :: cs => limitPatAt prev (c :: cs) || hasLimitNumAux (some c) cs

/-- `re.search(r"(?is)\blimit\s+\d+\b", sql)` as a Boolean. -/
def hasLimitNum (sql : String) : Bool :=
  hasLimitNumAux none sql.data

/-- The text appended by `_enforce_limit`:
`sql.rstrip().rstrip(";") + " LIMIT " + str(max(1, int(limit)))`. -/
def appendLimitStr (sql : String) (limit : Int) : String :=
  rstripSemi (rstripWs sql) ++ " LIMIT " ++ ⟨natToDigits (max 1 limit).toNat⟩

/-- `_enforce_limit` (repair.py lines 143-145): decline when the text already
matches `\blimit\s+\d+\b`, else append `LIMIT max(1, limit)`. -/
def enforceLimit (sql : String) (limit : Int) : Option String :=
  if hasLimitNum sql then none else some (appendLimitStr sql limit)

/-! ## The abstract syntax tree seen by the Python code

Modelled from the spec: the SQL parser is an external collaborator (spec
sections 1 and 6, sqlglot in the source).  `SqlAst` records exactly the
observations that repair.py, sql_guard.py and coverage.py make on a parsed
tree; a parser is any function `String → Except String SqlAst` (the
`String` error is the raised `ParseError` message). -/

/-- One `exp.Table` node: the base-name chain
`t.this.this.name or t.this.name` and the alias chain
`t.alias.this.name`, each possibly absent. -/
structure TableRef where
  base : Option String
  aliasName : Option String
deriving DecidableEq

/-- One `exp.Column` node: the qualifier attribute (`col.table`, absent or a
string) and the identifier name of `col.this` when it is an `exp.Identifier`. -/
structure ColRef where
  qualifier : Option String
  name : Option String
deriving DecidableEq

/-- One expression of a `SELECT` list, with the class tests and renderings the
Python code performs on it (`isinstance` checks, `e.sql(dialect="postgres")`,
containment of an aggregate node, and the `getattr(expr, "is_aggregate",
False)` probe on the alias-unwrapped expression). -/
structure SelItem where
  isAnonymous : Bool
  isLiteral : Bool
  isCast : Bool
  containsAgg : Bool
  sqlText : String
  unwrapIsAggAttr : Bool
  unwrapSqlText : String
deriving DecidableEq

/-- The parsed-tree observations used by the embedded functions.
`selectLists` holds the expression list of each `exp.Select` node in
`find_all` order (`find` sees the first); `anonFns` the names of all
`exp.Anonymous` nodes; `funcNames` the names of all `exp.Func` nodes;
`hasGroup` whether any `exp.Group` node exists; `groupExprTexts` the rendered
expressions of the first `exp.Group`; `limitNode` whether an `exp.Limit`
exists and, if so, the rendered text of its expression (absent for a bare
LIMIT); `hasAggNode` whether a dedicated aggregate node
(Sum/Avg/Count/Min/Max/ArrayAgg/StringAgg) exists anywhere;
`anyFuncIsAggAttr` the `getattr(f, "is_aggregate", False)` probe over all
function nodes; `hasDateTruncNode` whether an `exp.DateTrunc` node exists.
Note sqlglot yields `exp.Anonymous` only for function names it does not
recognise; `sum/count/avg/min/max` are recognised and parse to the dedicated
classes, and bare columns carry the qualifier attribute `""` rather than
`None`. -/
structure SqlAst where
  tables : List TableRef
  columns : List ColRef
  selectLists : List (List SelItem)
  anonFns : List String
  funcNames : List String
  hasGroup : Bool
  groupExprTexts : List String
  hasOrder : Bool
  limitNode : Option (Option String)
  hasStar : Bool
  hasAggNode : Bool
  anyFuncIsAggAttr : Bool
  hasDateTruncNode : Bool
deriving DecidableEq

/-! ## repair.py -/

/-- `AGG_FUNCS` (repair.py line 8). -/
def AGG_FUNCS : List String := ["sum", "count", "avg", "min", "max"]

/-- `_base_to_alias` (repair.py lines 13-19): an insertion-ordered dict from
lowercased base name to alias, later entries overwriting earlier ones. -/
def baseToAlias (t : SqlAst) : List (String × String) :=
  t.tables.foldl
    (fun m tr =>
      match tr.base, tr.aliasName with
      | some b, some a => dictInsert m (lowerStr b) a
      | _, _ => m)
    []
where
  dictInsert : List (String × String) → String → String → List (String × String)
    | [], k, v => [(k, v)]
    | (k0, v0) :: rest, k, v =>
      if k0 = k then (k0, v) :: rest else (k0, v0) :: dictInsert rest k v

/-- `_aliases` (repair.py lines 21-26): the set of lowercased table aliases.
Python iterates this `set` in an unspecified order; the embedding keeps the
first-occurrence order of the table list. -/
def aliasesOf (t : SqlAst) : List String :=
  uniqFirst ((t.tables.filterMap TableRef.aliasName).map lowerStr)

/-- `_joined_bases` (repair.py lines 28-33): the set of lowercased base table
names (same ordering convention as `aliasesOf`). -/
def joinedBases (t : SqlAst) : List String :=
  uniqFirst ((t.tables.filterMap TableRef.base).map lowerStr)

/-- `_lev1` (repair.py lines 35-65), the two-pointer edit-distance-at-most-one
check, translated literally (`la`, `lb` are the full input lengths; the fuel
is structural and the wrapper supplies enough of it for every input, the loop
advancing at least one pointer per step). -/
def lev1Loop (la lb : Nat) : Nat → List Char → List Char → Nat → Bool
  | fuel + 1, x :: xs, y :: ys, ed =>
    if x = y then lev1Loop la lb fuel xs ys ed
    else if ed + 1 > 1 then false
    else if la = lb then lev1Loop la lb fuel xs ys (ed + 1)
    else if la > lb then lev1Loop la lb fuel xs (y :: ys) (ed + 1)
    else lev1Loop la lb fuel (x :: xs) ys (ed + 1)
  | _, [], [], ed => ed ≤ 1
  | _, [], _ :: _, ed => ed + 1 ≤ 1
  | _, _ :: _, [], ed => ed + 1 ≤ 1
  | 0, _ :: _, _ :: _, _ => false

/-- `_lev1` entry point. -/
def lev1 (a b : String) : Bool :=
  if a = b then true
  else
    let la := a.data.length
    let lb := b.data.length
    if (if la ≥ lb then la - lb else lb - la) > 1 then false
    else lev1Loop la lb (la + lb + 1) a.data b.data 0

/-- `detect` (repair.py lines 68-82), success branch: the issue list computed
from a parsed tree and the raw text (`s = sql.strip().lower()`). -/
def detectOk (t : SqlAst) (sql : String) : List (String × String) :=
  let s := lowerStr (stripWs sql)
  (if containsSub " join " s && !containsSub " on " s && !containsSub " using " s then
    [("join-without-on", "")] else []) ++
  (if t.anonFns.any (fun n => lowerStr n ∈ AGG_FUNCS) && !t.hasGroup then
    [("aggregate-without-group-by", "")] else []) ++
  (if !containsSub " limit " s then [("no-limit", "")] else [])

/-- `detect` (repair.py lines 68-82): a parse failure short-circuits to a
single `parse-error` issue carrying the raised message. -/
def detect (parse : String → Except String SqlAst) (sql : String) :
    List (String × String) :=
  match parse sql with
  | .error e => [("parse-error", e)]
  | .ok t => detectOk t sql

/-- Case-insensitive prefix test (pattern, text). -/
def ciIsPrefix : List Char → List Char → Bool
  | [], _ => true
  | _ :: _, [] => false
  | p :: ps, c :: cs => ciEq c p && ciIsPrefix ps cs

/-- `re.findall(r"\b([A-Za-z_][\w$]*)\.", sql)` (repair.py line 100):
all word-boundary-initial identifiers immediately followed by a dot,
left to right, non-overlapping. -/
def findQualsAux : Nat → Option Char → List Char → List String
  | _, _, [] => []
  | 0, _, _ :: _ => []
  | fuel + 1, prev, c :: cs =>
    if boundary prev && (isLetterChar c || c = '_') &&
        (cs.drop (cs.takeWhile (fun d => isWordChar d || d = '$')).length).head?
          = some '.' then
      (⟨c :: cs.takeWhile (fun d => isWordChar d || d = '$')⟩ : String) ::
        findQualsAux fuel (some '.')
          (cs.drop ((cs.takeWhile (fun d => isWordChar d || d = '$')).length + 1))
    else findQualsAux fuel (some c) cs

/-- `findQualsAux` entry point (the fuel is structural; each step consumes at
least one character, so the length suffices). -/
def findQuals (sql : String) : List String :=
  findQualsAux sql.data.length none sql.data

/-- `re.sub(rf"\b{wrong}\.", f"{right}.", s, flags=re.IGNORECASE)`
(repair.py lines 92 and 110): replace every word-boundary occurrence of
`wrong` followed by a dot; the replacement is not rescanned. -/
def replQualAux (w rep : List Char) : Nat → Option Char → List Char → List Char
  | _, _, [] => []
  | 0, _, l => l
  | fuel + 1, prev, c :: cs =>
    if boundary prev && ciIsPrefix w (c :: cs) &&
        ((c :: cs).drop w.length).head? = some '.' then
      rep ++ '.' ::
        replQualAux w rep fuel (some '.') ((c :: cs).drop (w.length + 1))
    else c :: replQualAux w rep fuel (some c) cs

/-- `replQualAux` on strings: the consumed span is `wrong` plus the dot, the
replacement text `right` plus a dot (structural fuel, one character minimum
per step). -/
def replQual (wrong right sql : String) : String :=
  ⟨replQualAux wrong.data right.data sql.data.length none sql.data⟩

/-- `re.sub(rf"(?<!\.)\b{cname}\b", f"{qual}.{cname}", s, count=1)`
(repair.py line 125): first case-sensitive whole-word occurrence of `cname`
not preceded by a dot, replaced once. -/
def replFirstWordNotDot (w rep : List Char) : Option Char → List Char → List Char
  | _, [] => []
  | prev, c :: cs =>
    if prev ≠ some '.' && boundary prev && w.isPrefixOf (c :: cs) &&
        boundaryAfter ((c :: cs).drop w.length) then
      rep ++ (c :: cs).drop w.length
    else c :: replFirstWordNotDot w rep (some c) cs

/-- Attempt `\border\s+by\b` at the current position. -/
def orderByAt (prev : Option Char) (l : List Char) : Bool :=
  boundary prev &&
    match matchCI "order".data l with
    | none => false
    | some r1 =>
      match matchSpaces1 r1 with
      | none => false
      | some r2 =>
        match matchCI "by".data r2 with
        | none => false
        | some r3 => boundaryAfter r3

/-- `re.search(r"(?is)\border\s+by\b", sql)`: start index of the first match. -/
def searchOrderByIdx (sql : String) : Option Nat :=
  go none 0 sql.data
where
  go (prev : Option Char) (pos : Nat) : List Char → Option Nat
    | [] => none
    | c :: cs =>
      if orderByAt prev (c :: cs) then some pos
      else go (some c) (pos + 1) cs

/-- Attempt `\blimit\b` at the current position. -/
def limitWordAt (prev : Option Char) (l : List Char) : Bool :=
  boundary prev &&
    match matchCI "limit".data l with
    | none => false
    | some r1 => boundaryAfter r1

/-- `re.search(r"(?is)\blimit\b", sql)`: start index of the first match. -/
def searchLimitWordIdx (sql : String) : Option Nat :=
  go none 0 sql.data
where
  go (prev : Option Char) (pos : Nat) : List Char → Option Nat
    | [] => none
    | c :: cs =>
      if limitWordAt prev (c :: cs) then some pos
      else go (some c) (pos + 1) cs

/-- `sql[:i] + clause + " " + sql[i:]` (repair.py line 141). -/
def insertAt (sql : String) (i : Nat) (clause : String) : String :=
  (⟨sql.data.take i⟩ : String) ++ clause ++ " " ++ (⟨sql.data.drop i⟩ : String)

/-- Association-list lookup, as Python `dict.get`. -/
def assocLookup (m : List (String × String)) (k : String) : Option String :=
  match m.find? (fun kv => kv.1 = k) with
  | some kv => some kv.2
  | none => none

/-- `_fix_alias_qualifiers` (repair.py lines 85-93): rewrite every
`base.column` qualifier to `alias.column` for each aliased base table. -/
def fixAliasQualifiers (parse : String → Option SqlAst) (sql : String) :
    Option String :=
  match parse sql with
  | none => none
  | some t =>
    let b2a := baseToAlias t
    if b2a = [] then none
    else
      let fixed := b2a.foldl (fun s ba => replQual ba.1 ba.2 s) sql
      if fixed ≠ sql then some fixed else none

/-- `_fix_alias_typos` (repair.py lines 95-111), body after the alias set is
read off the tree: for each qualifier token not in the alias set, the FIRST
alias within `_lev1` distance is substituted (Python iterates a `set`; the
iteration order is the `aliases` list parameter here). -/
def fixAliasTyposWith (aliases : List String) (sql : String) : Option String :=
  if aliases = [] then none
  else
    let quals := uniqFirst (findQuals sql)
    let rep := quals.foldl
      (fun m q =>
        let ql := lowerStr q
        if ql ∈ aliases then m
        else
          match aliases.find? (fun a => lev1 ql a) with
          | some near => m ++ [(q, near)]
          | none => m)
      ([] : List (String × String))
    if rep = [] then none
    else
      let fixed := rep.foldl (fun s wr => replQual wr.1 wr.2 s) sql
      if fixed ≠ sql then some fixed else none

/-- `_fix_alias_typos` (repair.py lines 95-111) with its own parse step. -/
def fixAliasTypos (parse : String → Option SqlAst) (sql : String) :
    Option String :=
  match parse sql with
  | none => none
  | some t => fixAliasTyposWith (aliasesOf t) sql

/-- `_qualify_bare` (repair.py lines 113-126): qualify each bare column
against the first referenced base table (`bases[0]`), one first-occurrence
substitution per column.  Note the source tests `col.table is not None`. -/
def qualifyBare (parse : String → Option SqlAst) (sql : String) :
    Option String :=
  match parse sql with
  | none => none
  | some t =>
    let b2a := baseToAlias t
    match joinedBases t with
    | [] => none
    | b0 :: _ =>
      let fixed := t.columns.foldl
        (fun s col =>
          if col.qualifier ≠ none then s
          else
            match col.name with
            | none => s
            | some cname =>
              let qual :=
                match assocLookup b2a b0 with
                | some a => if a = "" then b0 else a
                | none => b0
              ⟨replFirstWordNotDot cname.data (qual ++ "." ++ cname).data
                none s.data⟩)
        sql
      if fixed ≠ sql then some fixed else none

/-- `_add_group_by` (repair.py lines 128-141): when an anonymous aggregate
call is present and no GROUP BY exists, append a GROUP BY over the
non-aggregate, non-literal select expressions, inserted before an existing
ORDER BY / LIMIT. -/
def addGroupBy (parse : String → Option SqlAst) (sql : String) :
    Option String :=
  match parse sql with
  | none => none
  | some t =>
    let hasAgg := t.anonFns.any (fun n => lowerStr n ∈ AGG_FUNCS)
    if !hasAgg || t.hasGroup then none
    else
      let nonAggs := t.selectLists.flatten.foldl
        (fun acc e =>
          if e.isAnonymous || e.isLiteral then acc else acc ++ [e.sqlText])
        []
      if nonAggs = [] then none
      else
        let clause := " GROUP BY " ++ String.intercalate ", " (uniqFirst nonAggs)
        match searchOrderByIdx sql with
        | some i => some (insertAt sql i clause)
        | none =>
          match searchLimitWordIdx sql with
          | some i => some (insertAt sql i clause)
          | none => some (stripWs sql ++ clause)

/-! ## The `RepairEngine` loop (repair.py lines 147-178) -/

/-- A `RepairRule` (repair.py lines 147-150): a name and a pure fixer. -/
abbrev Rule := String × (String → Option String)

/-- `DEFAULT_RULES` (repair.py lines 152-157). -/
def DEFAULT_RULES (parse : String → Option SqlAst) : List Rule :=
  [("alias_qualifiers", fixAliasQualifiers parse),
   ("alias_typos", fixAliasTypos parse),
   ("qualify_bare", qualifyBare parse),
   ("group_by", addGroupBy parse)]

/-- The state after running some rules of one pass. -/
structure PassOut where
  cand : String
  names : List String
  changed : Bool
deriving DecidableEq

/-- The inner rule loop of one pass (repair.py lines 168-171): a rule result
is accepted exactly when it is non-`None`, non-empty (Python truthiness of
`res`) and differs from the current candidate. -/
def runRulesGo : List Rule → String → List String → Bool → PassOut
  | [], cand, names, changed => ⟨cand, names, changed⟩
  | r :: rs, cand, names, changed =>
    match r.2 cand with
    | some s =>
      if s ≠ "" ∧ s ≠ cand then runRulesGo rs s (names ++ [r.1]) true
      else runRulesGo rs cand names changed
    | none => runRulesGo rs cand names changed

/-- One outer pass: `changed = False`, then every rule in order. -/
def runPass (R : List Rule) (cand : String) : PassOut :=
  runRulesGo R cand [] false

/-- The result of the outer loop, with the final value of the Python
`changed` flag and the number of passes that executed. -/
structure LoopOut where
  cand : String
  applied : List String
  changed : Bool
  passes : Nat
deriving DecidableEq

/-- The outer loop `for _ in range(3): if not changed: break; ...`
(repair.py lines 165-171), with fuel `3` and initial flag `True`. -/
def loopGo (R : List Rule) : Nat → Bool → String → List String → LoopOut
  | 0, changed, cand, acc => ⟨cand, acc, changed, 0⟩
  | n + 1, changed, cand, acc =>
    if changed then
      let p := runPass R cand
      let r := loopGo R n p.changed p.cand (acc ++ p.names)
      ⟨r.cand, r.applied, r.changed, r.passes + 1⟩
    else ⟨cand, acc, changed, 0⟩

/-- The rule list actually iterated each pass:
`self.rules + [RepairRule("limit", _limit_rule)]`, with
`self.limit = max(1, int(limit))` from the constructor. -/
def engineRules (limit : Int) (rules : List Rule) : List Rule :=
  rules ++ [("limit", fun s => enforceLimit s (max 1 limit))]

/-- `RepairEngine.apply` (repair.py lines 162-178), loop portion: the
candidate, the applied-rule names, the final `changed` flag and the pass
count. -/
def engineApply (limit : Int) (rules : List Rule) (sql : String) : LoopOut :=
  loopGo (engineRules limit rules) 3 true sql []

/-- `RepairEngine.apply` (repair.py lines 162-178) returned triple
`(cand, remaining, applied)`.  The trailing
`try: parse_one(cand); ensure_known_tables_cached(cand) except: pass`
(lines 174-177) swallows every exception and does not affect the returned
values, so it contributes nothing here. -/
def repairApply (parse : String → Except String SqlAst) (limit : Int)
    (rules : List Rule) (sql : String) : String × List String × List String :=
  let o := engineApply limit rules sql
  (o.cand, (detect parse o.cand).map Prod.fst, o.applied)

/-! ## sql_guard.py -/

/-- The aggregate names of `_AGG_RE` (sql_guard.py line 11), in alternation
order. -/
def AGG_RE_NAMES : List String :=
  ["sum", "avg", "count", "min", "max", "array_agg", "string_agg",
   "bool_and", "bool_or"]

/-- Attempt `\b(sum|avg|...)\s*\(` at the current position. -/
def aggCallAt (prev : Option Char) (l : List Char) : Bool :=
  boundary prev &&
    AGG_RE_NAMES.any (fun nm =>
      match matchCI nm.data l with
      | none => false
      | some r => (r.dropWhile isSpaceChar).head? = some '(')

/-- `_AGG_RE.search` (sql_guard.py line 11). -/
def hasAggCallText (s : String) : Bool :=
  go none s.data
where
  go (prev : Option Char) : List Char → Bool
    | [] => false
    | c :: cs => aggCallAt prev (c :: cs) || go (some c) cs

/-- Attempt `\bgroup\s+by\b` at the current position. -/
def groupByAt (prev : Option Char) (l : List Char) : Bool :=
  boundary prev &&
    match matchCI "group".data l with
    | none => false
    | some r1 =>
      match matchSpaces1 r1 with
      | none => false
      | some r2 =>
        match matchCI "by".data r2 with
        | none => false
        | some r3 => boundaryAfter r3

/-- `_GROUPBY_RE.search` (sql_guard.py line 12). -/
def hasGroupByText (s : String) : Bool :=
  go none s.data
where
  go (prev : Option Char) : List Char → Bool
    | [] => false
    | c :: cs => groupByAt prev (c :: cs) || go (some c) cs

/-- `_looks_like_single_aggregate` (sql_guard.py lines 23-25). -/
def looksLikeSingleAggregate (sql : String) : Bool :=
  let s := stripWs sql
  hasAggCallText s && !hasGroupByText s

/-- The last dot-separated component of a table reference
(`ref.split(".")[-1]`): the suffix after the last dot, the whole string when
no dot occurs. -/
def lastDotComponent (ref : String) : String :=
  ⟨(ref.data.reverse.takeWhile (· ≠ '.')).reverse⟩

/-- The resolution test of `validate_schema` / `ensure_known_tables_cached`
(sql_guard.py lines 121-124 and 150-153): exact match, bare-name match, or
qualified-entry suffix match. -/
def resolvesRef (knownSet : List String) (ref : String) : Bool :=
  let base := lastDotComponent ref
  ref ∈ knownSet || base ∈ knownSet ||
    knownSet.any (fun k => ("." ++ base).data.isSuffixOf k.data)

/-- `validate_schema` (sql_guard.py lines 133-159).  `knownNames` models the
cached snapshot names from `known_schema()`; `refs` models `_tables_in(sql)`,
the lowercased table references the external parser extracts from the SQL
(empty on a parse failure).  The loop appends the bare tag
`"schema-unknown-table"` for the first unresolved reference and breaks. -/
def validateSchema (knownNames : List String) (refs : List String) :
    List String :=
  let knownSet := uniqFirst (knownNames.map lowerStr)
  if knownSet = [] then []
  else if refs.any (fun r => !resolvesRef knownSet r) then
    ["schema-unknown-table"]
  else []

/-- `ensure_known_tables_cached` (sql_guard.py lines 104-130): `none` models a
normal return, `some names` the raised
`ValueError("Unknown tables in SQL: ...")` whose message joins
`sorted(set(missing))`. -/
def ensureKnownTablesCached (knownNames : List String) (refs : List String) :
    Option (List String) :=
  let knownSet := uniqFirst (knownNames.map lowerStr)
  if knownSet = [] then none
  else
    let missing := refs.filter (fun r => !resolvesRef knownSet r)
    if missing = [] then none
    else some (sortStrings (uniqFirst missing))

/-- `lint_sql` (sql_guard.py lines 191-238). -/
def lintSql (tree : Option SqlAst) (sql : String) : List String :=
  match tree with
  | none => []
  | some t =>
    let selectItems := t.selectLists.headD []
    let hasAggInSelect := selectItems.any SelItem.containsAgg
    let selectsNonAgg := selectItems.any
      (fun e => !(e.containsAgg || e.isLiteral || e.isCast))
    let tags :=
      (if t.hasStar then ["select-star"] else []) ++
      (if t.limitNode.isSome && !t.hasOrder then ["missing-order-by-on-topk"]
       else []) ++
      (if (uniqFirst (t.tables.filterMap TableRef.base)).length > 1 &&
          t.columns.any (fun c => stripWs (c.qualifier.getD "") = "") then
        ["ambiguous-column"]
       else []) ++
      (if hasAggInSelect && !t.hasGroup && selectsNonAgg then
        ["aggregate-without-group-by"]
       else [])
    let uniq := uniqFirst tags
    if "aggregate-without-group-by" ∈ uniq && looksLikeSingleAggregate sql then
      uniq.filter (fun x => x ≠ "aggregate-without-group-by")
    else uniq

/-! ## routes/test.py -/

/-- `BLOCKERS` (routes/test.py line 7). -/
def BLOCKERS : List String :=
  ["parse-error", "unknown-table", "unknown-column", "join-without-on",
   "must-use-alias", "aggregate-without-group-by", "unknown-qualifier"]

/-- `_score_sql` (routes/test.py lines 9-14) applied to a `detect` result:
`(num_blockers, num_warnings)`. -/
def scoreSql (issues : List (String × String)) : Nat × Nat :=
  ((issues.filter (fun i => i.1 ∈ BLOCKERS)).length,
   (issues.filter (fun i => i.1 ∉ BLOCKERS)).length)

/-- One repaired-and-scored candidate as selected at routes/test.py line 88:
the SQL, its score and the associated repair outputs. -/
structure Candidate where
  sql : String
  blockers : Nat
  warnings : Nat
  applied : List String
  remaining : List String
deriving DecidableEq

/-- Python tuple comparison `(b_a, w_a) <= (b_b, w_b)`. -/
def pyPairLe (a b : Nat × Nat) : Bool :=
  a.1 < b.1 || (a.1 = b.1 && a.2 ≤ b.2)

/-- The candidate selection
`(cand_a, ...) if (b_a, w_a) <= (b_b, w_b) else (cand_b, ...)`
(routes/test.py lines 87-88). -/
def chooseCandidate (a b : Candidate) : Candidate :=
  if pyPairLe (a.blockers, a.warnings) (b.blockers, b.warnings) then a else b

/-! ## coverage.py -/

/-- The single-quote character (written by code point to keep the sources
plain). -/
def quoteChar : Char := Char.ofNat 39

/-- Numeric value of a digit run. -/
def digitsVal (ds : List Char) : Nat :=
  ds.foldl (fun a c => a * 10 + (c.val.toNat - 48)) 0

/-- Attempt `\btop\s+(\d+)\b` at the current position (coverage.py line 6). -/
def topPatAt (prev : Option Char) (l : List Char) : Option Nat :=
  if boundary prev then
    match matchCI "top".data l with
    | none => none
    | some r1 =>
      match matchSpaces1 r1 with
      | none => none
      | some r2 =>
        match matchDigits1 r2 with
        | none => none
        | some (ds, r3) => if boundaryAfter r3 then some (digitsVal ds) else none
  else none

/-- `_topk_expected` (coverage.py lines 13-15). -/
def topkExpected (q : String) : Option Nat :=
  go none q.data
where
  go (prev : Option Char) : List Char → Option Nat
    | [] => none
    | c :: cs =>
      match topPatAt prev (c :: cs) with
      | some n => some n
      | none => go (some c) cs

/-- The character class `[a-z_ ]` of `_BY_METRIC_Q` under `re.I`. -/
def metricClass (c : Char) : Bool :=
  isLetterChar c || c = '_' || c = ' '

/-- `true` when a word character follows. -/
def isWordOpt : Option Char → Bool
  | none => false
  | some c => isWordChar c

/-- `\b` between a last consumed character and the next. -/
def boundaryBetween (a : Char) (next : Option Char) : Bool :=
  isWordChar a != isWordOpt next

/-- Backtracking over the greedy `([a-z_ ][a-z_ ]+)\b` tail: the longest
group end (of length at least two) at which a word boundary holds. -/
def pickEnd : Nat → List Char → Option Char → Option (List Char)
  | _, [], _ => none
  | 0, _ :: _, _ => none
  | fuel + 1, c :: cs, next =>
    if 2 ≤ (c :: cs).length && boundaryBetween ((c :: cs).getLastD ' ') next then
      some (c :: cs)
    else pickEnd fuel (c :: cs).dropLast (some ((c :: cs).getLastD ' '))

/-- Attempt `\bby\s+([a-z_ ][a-z_ ]+)\b` (coverage.py line 7) at the current
position, returning the raw captured group.  (The caller strips the capture,
which makes the backtracking order between `\s+` and the space-containing
class immaterial; the scanner keeps the group maximal.) -/
def byPatAt (prev : Option Char) (l : List Char) : Option String :=
  if boundary prev then
    match matchCI "by".data l with
    | none => none
    | some r1 =>
      match matchSpaces1 r1 with
      | none => none
      | some r2 =>
        let spacesConsumed := r1.take (r1.length - r2.length)
        let avail := (spacesConsumed.drop 1) ++ r2
        let run := avail.takeWhile metricClass
        match pickEnd run.length run (avail.drop run.length).head? with
        | some g => some ⟨g⟩
        | none => none
  else none

/-- `_order_metric_expected` (coverage.py lines 17-19): the first match,
stripped. -/
def orderMetricExpected (q : String) : Option String :=
  go none q.data
where
  go (prev : Option Char) : List Char → Option String
    | [] => none
    | c :: cs =>
      match byPatAt prev (c :: cs) with
      | some m => some (stripWs m)
      | none => go (some c) cs

/-- `re.findall(r"'([^']+)'", s)` (coverage.py lines 9 and 85-86). -/
def qLiteralsAux : Nat → List Char → List String
  | _, [] => []
  | 0, _ :: _ => []
  | fuel + 1, c :: cs =>
    if c = quoteChar then
      if (cs.takeWhile (· ≠ quoteChar)) ≠ [] &&
          (cs.drop (cs.takeWhile (· ≠ quoteChar)).length).head? = some quoteChar
      then
        (⟨cs.takeWhile (· ≠ quoteChar)⟩ : String) ::
          qLiteralsAux fuel (cs.drop ((cs.takeWhile (· ≠ quoteChar)).length + 1))
      else qLiteralsAux fuel cs
    else qLiteralsAux fuel cs

/-- Quoted literals of a string (structural fuel, one character minimum per
step). -/
def qLiterals (s : String) : List String :=
  qLiteralsAux s.data.length s.data

/-- `[A-Z][A-Za-z]+`: an upper-case-initial word of length at least two. -/
def upWord (l : List Char) : Option (List Char × List Char) :=
  match l with
  | [] => none
  | c :: cs =>
    if c ≥ 'A' && c ≤ 'Z' then
      if cs.takeWhile isLetterChar = [] then none
      else some (c :: cs.takeWhile isLetterChar,
                 cs.drop (cs.takeWhile isLetterChar).length)
    else none

/-- Checkpoints of the greedy `(?:\s+[A-Z][A-Za-z]+)*` tail of
`_FROM_CITY_Q`: each prefix of extensions with the rest of the input. -/
def cityExts : Nat → List Char → List Char → List (List Char × List Char)
  | 0, cap, rest => [(cap, rest)]
  | fuel + 1, cap, rest =>
    match matchSpaces1 rest with
    | none => [(cap, rest)]
    | some r2 =>
      match upWord r2 with
      | none => [(cap, rest)]
      | some (w, r3) =>
        (cap, rest) :: cityExts fuel (cap ++ rest.take (rest.length - r2.length) ++ w) r3

/-- Attempt
`\b(from|in)\s+([A-Z][A-Za-z]+(?:\s+[A-Z][A-Za-z]+)*)\b`
(coverage.py line 11, case-sensitive) at the current position, returning
group 2; the greedy star backtracks to the longest checkpoint with a final
word boundary. -/
def cityPatAt (prev : Option Char) (l : List Char) : Option String :=
  if boundary prev then
    match (matchCI "from".data l).filter (fun _ => "from".data.isPrefixOf l)
        <|> (matchCI "in".data l).filter (fun _ => "in".data.isPrefixOf l) with
    | none => none
    | some r1 =>
      match matchSpaces1 r1 with
      | none => none
      | some r2 =>
        match upWord r2 with
        | none => none
        | some (w, r3) =>
          let cps := cityExts r3.length w r3
          match (cps.reverse.find? (fun cr => boundaryAfter cr.2)) with
          | some cr => some ⟨cr.1⟩
          | none => none
  else none

/-- `_FROM_CITY_Q.search` of `_question_entities` (coverage.py lines 25-26). -/
def fromCitySearch (q : String) : Option String :=
  go none q.data
where
  go (prev : Option Char) : List Char → Option String
    | [] => none
    | c :: cs =>
      match cityPatAt prev (c :: cs) with
      | some m => some m
      | none => go (some c) cs

/-- `_question_entities` (coverage.py lines 21-26). -/
def questionEntities (q : String) : List String :=
  let lits := qLiterals q
  if lits ≠ [] then lits
  else
    match fromCitySearch q with
    | some m => [m]
    | none => []

/-- The relative-time phrases of `_RELATIVE_Q` (coverage.py line 8), as word
sequences; `none` marks the `\d+` hole of `last \d+ days`. -/
def RELATIVE_PHRASES : List (List (Option String)) :=
  [[some "this", some "month"], [some "today"], [some "yesterday"],
   [some "last", none, some "days"], [some "this", some "week"],
   [some "last", some "month"], [some "this", some "quarter"],
   [some "this", some "year"]]

/-- Match one phrase alternative: words separated by `\s+`, the `none` hole
matching `\d+`. -/
def matchPhrase : List (Option String) → List Char → Option (List Char)
  | [], rest => some rest
  | some w :: ws, rest =>
    match matchCI w.data rest with
    | none => none
    | some r =>
      if ws = [] then some r
      else
        match matchSpaces1 r with
        | none => none
        | some r2 => matchPhrase ws r2
  | none :: ws, rest =>
    match matchDigits1 rest with
    | none => none
    | some (_, r) =>
      if ws = [] then some r
      else
        match matchSpaces1 r with
        | none => none
        | some r2 => matchPhrase ws r2

/-- Attempt `\b(this\s+month|...)\b` at the current position. -/
def relativeAt (prev : Option Char) (l : List Char) : Bool :=
  boundary prev &&
    RELATIVE_PHRASES.any (fun ph =>
      match matchPhrase ph l with
      | none => false
      | some r => boundaryAfter r)

/-- `_RELATIVE_Q.search` (coverage.py line 8). -/
def relativeQ (q : String) : Bool :=
  go none q.data
where
  go (prev : Option Char) : List Char → Bool
    | [] => false
    | c :: cs => relativeAt prev (c :: cs) || go (some c) cs

/-- Attempt `\bdate_trunc\s*\(` (coverage.py line 60) at the current
position. -/
def dateTruncAt (prev : Option Char) (l : List Char) : Bool :=
  boundary prev &&
    match matchCI "date_trunc".data l with
    | none => false
    | some r => (r.dropWhile isSpaceChar).head? = some '('

/-- The text fallback of `_has_date_trunc`. -/
def hasDateTruncText (s : String) : Bool :=
  go none s.data
where
  go (prev : Option Char) : List Char → Bool
    | [] => false
    | c :: cs => dateTruncAt prev (c :: cs) || go (some c) cs

/-- `_has_date_trunc` (coverage.py lines 44-60): dedicated node, anonymous
function named date_trunc, function node named date_trunc, then the text
regex. -/
def hasDateTrunc (t : SqlAst) (sqlText : String) : Bool :=
  t.hasDateTruncNode ||
  t.anonFns.any (fun n => lowerStr (stripWs n) = "date_trunc") ||
  t.funcNames.any (fun n => lowerStr (stripWs n) = "date_trunc") ||
  hasDateTruncText sqlText

/-- `_has_aggregate` (coverage.py lines 62-66). -/
def hasAggregate (t : SqlAst) : Bool :=
  t.hasAggNode || t.anyFuncIsAggAttr

/-- Python `int(s)` on a stripped string: optional sign then digits. -/
def pyInt (s : String) : Option Int :=
  match s.data with
  | [] => none
  | '-' :: ds =>
    if ds ≠ [] && ds.all isDigitChar then some (-(digitsVal ds : Int)) else none
  | '+' :: ds =>
    if ds ≠ [] && ds.all isDigitChar then some ((digitsVal ds : Int)) else none
  | ds => if ds.all isDigitChar then some ((digitsVal ds : Int)) else none

/-- `_int_from_expr` (coverage.py lines 29-35). -/
def intFromExpr (e : Option String) : Option Int :=
  match e with
  | none => none
  | some txt => pyInt (stripWs txt)

/-- `_limit_of` (coverage.py lines 37-39). -/
def limitOf (t : SqlAst) : Option Int :=
  match t.limitNode with
  | none => none
  | some e => intFromExpr e

/-- `_select_dims_not_in_group_by` (coverage.py lines 68-83). -/
def selectDimsNotInGroupBy (t : SqlAst) : List String :=
  match t.selectLists with
  | [] => []
  | sel :: _ =>
    let gbSet :=
      if t.hasGroup then t.groupExprTexts.map (fun e => lowerStr (stripWs e))
      else []
    sel.foldl
      (fun miss item =>
        if item.unwrapIsAggAttr then miss
        else
          let s := lowerStr (stripWs item.unwrapSqlText)
          if s ∈ gbSet then miss else miss ++ [s])
      []

/-- The `CoverageReport` dict returned by `audit_sql_coverage`. -/
structure CoverageReport where
  ok : Bool
  missing : List String
  topKExpected : Option Nat
  topKFound : Option Int
  orderMetricExp : Option String
  orderMetricFound : Option String
deriving DecidableEq

/-- `audit_sql_coverage` (coverage.py lines 89-151).  The `Except.error`
result models an uncaught Python exception escaping the function; the
group-by block (lines 137-141) appends to the undefined name `issues`, which
raises `NameError` whenever it is reached. -/
def auditSqlCoverage (parse : String → Except String SqlAst)
    (question sql : String) : Except String CoverageReport :=
  let q := stripWs question
  let s := stripWs sql
  match parse s with
  | .error _ =>
    .ok ⟨false, ["sql-parse-failed"], topkExpected q, none,
         orderMetricExpected q, none⟩
  | .ok tree =>
    let kExpected := topkExpected q
    let kFound := limitOf tree
    let m1 : List String :=
      match kExpected with
      | some k =>
        if kFound ≠ some (k : Int) then
          ["expect LIMIT " ++ (⟨natToDigits k⟩ : String)]
        else []
      | none => []
    let metricExpected := orderMetricExpected q
    let m2 : List String :=
      match metricExpected with
      | some m => if m ≠ "" && !tree.hasOrder then ["missing ORDER BY"] else []
      | none => []
    let entities := questionEntities q
    let m3 : List String :=
      if entities ≠ [] then
        let sLits := uniqFirst (qLiterals s)
        entities.foldl
          (fun acc ent =>
            if ent ∈ sLits then acc
            else
              acc ++ ["missing literal " ++ (⟨[quoteChar]⟩ : String) ++ ent ++
                      (⟨[quoteChar]⟩ : String)])
          []
      else []
    let m4 : List String :=
      if relativeQ q && !hasDateTrunc tree s then
        ["missing bounded time window (date_trunc)"]
      else []
    if hasAggregate tree && selectDimsNotInGroupBy tree ≠ [] then
      .error "NameError: issues"
    else
      let missing := m1 ++ m2 ++ m3 ++ m4
      .ok ⟨missing.isEmpty, missing, kExpected, kFound, metricExpected, none⟩

/-! ## Concrete parser models and trees for the closed theorems -/

/-- Balanced-parentheses check used by the parser model below. -/
def parensOk (s : String) : Bool :=
  go 0 s.data
where
  go : Nat → List Char → Bool
    | n, [] => n = 0
    | n, c :: cs =>
      if c = '(' then go (n + 1) cs
      else if c = ')' then
        match n with
        | 0 => false
        | m + 1 => go m cs
      else go n cs

/-- A tree with no content.  Only returned on the balanced branch of the
parser models below, which no theorem ever takes. -/
def emptyAst : SqlAst :=
  { tables := [], columns := [], selectLists := [], anonFns := [],
    funcNames := [], hasGroup := false, groupExprTexts := [],
    hasOrder := false, limitNode := none, hasStar := false,
    hasAggNode := false, anyFuncIsAggAttr := false,
    hasDateTruncNode := false }

/-- Modelled from the spec: the SQL parser is an external collaborator (spec
sections 1 and 6; sqlglot in the source, which is not part of this
repository).  This model captures the one behaviour the closed theorems
rely on: a string with unbalanced parentheses raises a parse error (sqlglot
rejects `(((` and `((( LIMIT 50`).  The tree returned for balanced strings
is a placeholder that no theorem inspects. -/
def parseModelO (s : String) : Option SqlAst :=
  if parensOk s then some emptyAst else none

/-- Modelled from the spec: `Except` form of `parseModelO`, with the raised
message abstracted as `"ParseError"`. -/
def parseModelE (s : String) : Except String SqlAst :=
  if parensOk s then .ok emptyAst else .error "ParseError"

/-- The sqlglot parse of `SELECT city, SUM(amount) FROM orders`: one table,
two select expressions (a plain column and a `SUM` call, which parses to the
dedicated `exp.Sum` node, not `exp.Anonymous`), no GROUP BY, ORDER BY or
LIMIT; `is_aggregate` is not an attribute of sqlglot expressions, so the
`getattr(..., False)` probes yield `False`. -/
def astCitySum : SqlAst :=
  { tables := [⟨some "orders", none⟩]
    columns := [⟨some "", some "city"⟩, ⟨some "", some "amount"⟩]
    selectLists := [[⟨false, false, false, false, "city", false, "city"⟩,
                     ⟨false, false, false, true, "SUM(amount)", false,
                      "SUM(amount)"⟩]]
    anonFns := []
    funcNames := ["sum"]
    hasGroup := false
    groupExprTexts := []
    hasOrder := false
    limitNode := none
    hasStar := false
    hasAggNode := true
    anyFuncIsAggAttr := false
    hasDateTruncNode := false }

/-! ## Lemmas about the repair-engine loop -/

theorem runRulesGo_changed_true (R : List Rule) (cand : String)
    (names : List String) : (runRulesGo R cand names true).changed = true := by
  induction R generalizing cand names with
  | nil => rfl
  | cons r rs ih =>
    unfold runRulesGo
    cases hr : r.2 cand with
    | none => exact ih ..
    | some s =>
      by_cases hs : s ≠ "" ∧ s ≠ cand
      · dsimp only
        rw [if_pos hs]
        exact ih ..
      · dsimp only
        rw [if_neg hs]
        exact ih ..

theorem runRulesGo_unchanged (R : List Rule) (cand : String)
    (names : List String) (ch : Bool)
    (h : (runRulesGo R cand names ch).changed = false) :
    (runRulesGo R cand names ch).cand = cand ∧
      (runRulesGo R cand names ch).names = names ∧ ch = false := by
  induction R generalizing cand names ch with
  | nil => exact ⟨rfl, rfl, h⟩
  | cons r rs ih =>
    unfold runRulesGo at h ⊢
    cases hr : r.2 cand with
    | none =>
      simp only [hr] at h
      exact ih _ _ _ h
    | some s =>
      simp only [hr] at h
      by_cases hs : s ≠ "" ∧ s ≠ cand
      · rw [if_pos hs] at h
        have := runRulesGo_changed_true rs s (names ++ [r.1])
        rw [h] at this
        exact absurd this (by simp)
      · rw [if_neg hs] at h
        dsimp only
        rw [if_neg hs]
        exact ih _ _ _ h

theorem runRulesGo_names_ex (R : List Rule) (cand : String)
    (names : List String) (ch : Bool) :
    ∃ suf, (runRulesGo R cand names ch).names = names ++ suf ∧
      (suf = [] → (runRulesGo R cand names ch).cand = cand) := by
  induction R generalizing cand names ch with
  | nil => exact ⟨[], by simp [runRulesGo], fun _ => rfl⟩
  | cons r rs ih =>
    unfold runRulesGo
    cases hr : r.2 cand with
    | none => exact ih ..
    | some s =>
      by_cases hs : s ≠ "" ∧ s ≠ cand
      · dsimp only
        rw [if_pos hs]
        obtain ⟨suf, h1, _⟩ := ih s (names ++ [r.1]) true
        exact ⟨[r.1] ++ suf, by simpa using h1, by simp⟩
      · dsimp only
        rw [if_neg hs]
        exact ih ..

theorem runPass_of_not_changed (R : List Rule) (cand : String)
    (h : (runPass R cand).changed = false) :
    runPass R cand = ⟨cand, [], false⟩ := by
  unfold runPass at h ⊢
  obtain ⟨h1, h2, -⟩ := runRulesGo_unchanged R cand [] false h
  have heta : runRulesGo R cand [] false =
      ⟨(runRulesGo R cand [] false).cand, (runRulesGo R cand [] false).names,
       (runRulesGo R cand [] false).changed⟩ := rfl
  rw [heta, h1, h2, h]

theorem loopGo_false (R : List Rule) (n : Nat) (cand : String)
    (acc : List String) : loopGo R n false cand acc = ⟨cand, acc, false, 0⟩ := by
  cases n <;> simp [loopGo]

theorem loopGo_passes_le (R : List Rule) (n : Nat) (ch : Bool) (cand : String)
    (acc : List String) : (loopGo R n ch cand acc).passes ≤ n := by
  induction n generalizing ch cand acc with
  | zero => exact Nat.le_refl _
  | succ n ih =>
    by_cases h : ch
    · subst h
      simp only [loopGo, if_true]
      exact Nat.succ_le_succ (ih ..)
    · have : ch = false := by simpa using h
      subst this
      simp [loopGo]

theorem loopGo_applied_ex (R : List Rule) (n : Nat) (ch : Bool) (cand : String)
    (acc : List String) :
    ∃ suf, (loopGo R n ch cand acc).applied = acc ++ suf ∧
      (suf = [] → (loopGo R n ch cand acc).cand = cand) := by
  induction n generalizing ch cand acc with
  | zero => exact ⟨[], by simp [loopGo], fun _ => rfl⟩
  | succ n ih =>
    by_cases h : ch
    · subst h
      simp only [loopGo, if_true]
      obtain ⟨sufp, hp1, hp2⟩ := runRulesGo_names_ex R cand [] false
      obtain ⟨sufr, hr1, hr2⟩ :=
        ih (runPass R cand).changed (runPass R cand).cand
          (acc ++ (runPass R cand).names)
      refine ⟨(runPass R cand).names ++ sufr, ?_, ?_⟩
      · simpa [List.append_assoc] using hr1
      · intro hnil
        have h1 : (runPass R cand).names = [] := by
          rcases List.append_eq_nil.mp hnil with ⟨ha, _⟩
          exact ha
        have h2 : sufr = [] := by
          rcases List.append_eq_nil.mp hnil with ⟨_, hb⟩
          exact hb
        have hcand : (runPass R cand).cand = cand := by
          apply hp2
          have : (runPass R cand).names = [] ++ sufp := hp1
          simpa [h1] using this.symm
        rw [hr2 h2, hcand]
    · have : ch = false := by simpa using h
      subst this
      exact ⟨[], by simp [loopGo_false], fun _ => by simp [loopGo_false]⟩

theorem mem_uniqFirst_go (l acc : List String) (x : String) :
    x ∈ uniqFirst.go l acc ↔ x ∈ acc ∨ x ∈ l := by
  induction l generalizing acc with
  | nil => simp [uniqFirst.go]
  | cons y ys ih =>
    unfold uniqFirst.go
    by_cases hy : y ∈ acc
    · rw [if_pos hy, ih]
      constructor
      · rintro (h | h)
        · exact Or.inl h
        · exact Or.inr (List.mem_cons_of_mem _ h)
      · rintro (h | h)
        · exact Or.inl h
        · rcases List.mem_cons.mp h with rfl | h
          · exact Or.inl hy
          · exact Or.inr h
    · rw [if_neg hy, ih]
      simp [List.mem_cons, or_assoc]

theorem mem_uniqFirst (l : List String) (x : String) :
    x ∈ uniqFirst l ↔ x ∈ l := by
  simpa using mem_uniqFirst_go l [] x

theorem mem_sortStrings_ins (x y : String) (l : List String) :
    x ∈ sortStrings.ins y l ↔ x = y ∨ x ∈ l := by
  induction l with
  | nil => simp [sortStrings.ins]
  | cons z zs ih =>
    unfold sortStrings.ins
    by_cases h : strLeB y z
    · rw [if_pos h]
      simp [List.mem_cons]
    · rw [if_neg h]
      simp only [List.mem_cons, ih]
      tauto

theorem mem_sortStrings (l : List String) (x : String) :
    x ∈ sortStrings l ↔ x ∈ l := by
  induction l with
  | nil => simp [sortStrings, sortStrings.go]
  | cons y ys ih =>
    unfold sortStrings at ih ⊢
    unfold sortStrings.go
    rw [mem_sortStrings_ins, ih]
    simp [List.mem_cons]

theorem natToDigitsGo_ne_nil (fuel n : Nat) (acc : List Char) (h : acc ≠ []) :
    natToDigitsGo fuel n acc ≠ [] := by
  induction fuel generalizing n acc with
  | zero => exact h
  | succ fuel ih =>
    unfold natToDigitsGo
    by_cases hn : n < 10
    · rw [if_pos hn]
      simp
    · rw [if_neg hn]
      exact ih _ _ (by simp)

theorem natToDigits_ne_nil (n : Nat) : natToDigits n ≠ [] := by
  unfold natToDigits natToDigitsGo
  by_cases hn : n < 10
  · rw [if_pos hn]
    simp
  · rw [if_neg hn]
    exact natToDigitsGo_ne_nil _ _ _ (by simp)

theorem isDigitChar_ofNat (m : Nat) (h : m < 10) :
    isDigitChar (Char.ofNat (48 + m)) = true := by
  interval_cases m <;> decide

theorem natToDigitsGo_digits (fuel n : Nat) (acc : List Char)
    (hacc : ∀ c ∈ acc, isDigitChar c = true) :
    ∀ c ∈ natToDigitsGo fuel n acc, isDigitChar c = true := by
  induction fuel generalizing n acc with
  | zero => exact hacc
  | succ fuel ih =>
    unfold natToDigitsGo
    by_cases hn : n < 10
    · rw [if_pos hn]
      intro c hc
      rcases List.mem_cons.mp hc with rfl | hc
      · exact isDigitChar_ofNat n hn
      · exact hacc c hc
    · rw [if_neg hn]
      refine ih _ _ ?_
      intro c hc
      rcases List.mem_cons.mp hc with rfl | hc
      · exact isDigitChar_ofNat _ (Nat.mod_lt _ (by omega))
      · exact hacc c hc

theorem natToDigits_digits (n : Nat) :
    ∀ c ∈ natToDigits n, isDigitChar c = true :=
  natToDigitsGo_digits _ _ _ (by simp)

theorem digit_not_space {c : Char} (h : isDigitChar c = true) :
    isSpaceChar c = false := by
  by_contra hc
  have hs : isSpaceChar c = true := by simpa using hc
  unfold isSpaceChar at hs
  simp only [Bool.or_eq_true, decide_eq_true_eq] at hs
  rcases hs with ((((h1 | h1) | h1) | h1) | h1) | h1 <;> subst h1 <;>
    exact absurd h (by decide)

theorem takeWhile_eq_self_of_all {p : Char → Bool} (l : List Char)
    (h : ∀ c ∈ l, p c = true) : l.takeWhile p = l :=
  List.takeWhile_eq_self_iff.mpr h

theorem limitPat_at_digits (ds : List Char) (h1 : ds ≠ [])
    (h2 : ∀ c ∈ ds, isDigitChar c = true) :
    limitPatAt (some ' ')
      ('L' :: 'I' :: 'M' :: 'I' :: 'T' :: ' ' :: ds) = true := by
  have hm1 : matchCI "limit".data ('L' :: 'I' :: 'M' :: 'I' :: 'T' :: ' ' :: ds)
      = some (' ' :: ds) := rfl
  have hdrop : ds.dropWhile isSpaceChar = ds := by
    cases ds with
    | nil => rfl
    | cons d ds' =>
      unfold List.dropWhile
      rw [digit_not_space (h2 d (by simp))]
  have hsp : isSpaceChar ' ' = true := by decide
  have hm2 : matchSpaces1 (' ' :: ds) = some ds := by
    simp [matchSpaces1, hsp, hdrop]
  have htake : ds.takeWhile isDigitChar = ds := takeWhile_eq_self_of_all ds h2
  have hm3 : matchDigits1 ds = some (ds, []) := by
    unfold matchDigits1
    simp only [htake]
    rw [if_neg (by simpa [List.isEmpty_iff] using h1)]
    simp
  unfold limitPatAt
  rw [hm1]
  dsimp only
  rw [hm2]
  dsimp only
  rw [hm3]
  dsimp only
  decide

theorem hasLimitNumAux_append (xs : List Char) (prev : Option Char)
    (ds : List Char) (h1 : ds ≠ []) (h2 : ∀ c ∈ ds, isDigitChar c = true) :
    hasLimitNumAux prev
      (xs ++ (' ' :: 'L' :: 'I' :: 'M' :: 'I' :: 'T' :: ' ' :: ds)) = true := by
  induction xs generalizing prev with
  | nil =>
    simp only [List.nil_append]
    unfold hasLimitNumAux
    unfold hasLimitNumAux
    rw [limitPat_at_digits ds h1 h2]
    simp
  | cons x xs ih =>
    simp only [List.cons_append]
    unfold hasLimitNumAux
    rw [ih (some x)]
    simp

theorem data_appendLimitStr (sql : String) (l : Int) :
    (appendLimitStr sql l).data =
      (rstripSemi (rstripWs sql)).data ++
        (' ' :: 'L' :: 'I' :: 'M' :: 'I' :: 'T' :: ' ' ::
          natToDigits (max 1 l).toNat) := by
  unfold appendLimitStr
  simp [String.data_append]

theorem hasLimitNum_appendLimitStr (sql : String) (l : Int) :
    hasLimitNum (appendLimitStr sql l) = true := by
  unfold hasLimitNum
  rw [data_appendLimitStr]
  exact hasLimitNumAux_append _ _ _ (natToDigits_ne_nil _) (natToDigits_digits _)

theorem appendLimitStr_ne_empty (sql : String) (l : Int) :
    appendLimitStr sql l ≠ "" := by
  intro h
  have : (appendLimitStr sql l).data = [] := by simp [h]
  rw [data_appendLimitStr] at this
  exact absurd this (by simp)

theorem loopGo_fixed (R : List Rule) (n : Nat) (cand : String)
    (acc : List String) (h : (loopGo R n true cand acc).changed = false) :
    runPass R ((loopGo R n true cand acc).cand) =
      ⟨(loopGo R n true cand acc).cand, [], false⟩ := by
  induction n generalizing cand acc with
  | zero => simp [loopGo] at h
  | succ n ih =>
    simp only [loopGo, if_true] at h ⊢
    by_cases hp : (runPass R cand).changed
    · rw [hp] at h ⊢
      exact ih _ _ h
    · have hp0 : (runPass R cand).changed = false := by simpa using hp
      have hpass := runPass_of_not_changed R cand hp0
      rw [hp0] at h ⊢
      rw [loopGo_false]
      have hcand : (runPass R cand).cand = cand := by rw [hpass]
      simpa [hcand] using hpass

theorem defaultRules_decline (p : String → Option SqlAst) (sql : String)
    (hp : p sql = none) :
    fixAliasQualifiers p sql = none ∧ fixAliasTypos p sql = none ∧
      qualifyBare p sql = none ∧ addGroupBy p sql = none :=
  ⟨by simp [fixAliasQualifiers, hp], by simp [fixAliasTypos, hp],
   by simp [qualifyBare, hp], by simp [addGroupBy, hp]⟩

theorem appendLimitStr_ne_self (sql : String) (limit : Int)
    (hl : hasLimitNum sql = false) : appendLimitStr sql limit ≠ sql := by
  intro h
  have := hasLimitNum_appendLimitStr sql limit
  rw [h, hl] at this
  exact absurd this (by simp)

theorem runPass_unparseable (p : String → Option SqlAst) (limit : Int)
    (sql : String) (hp : p sql = none) :
    runPass (engineRules limit (DEFAULT_RULES p)) sql =
      if hasLimitNum sql then ⟨sql, [], false⟩
      else ⟨appendLimitStr sql (max 1 limit), ["limit"], true⟩ := by
  obtain ⟨h1, h2, h3, h4⟩ := defaultRules_decline p sql hp
  unfold runPass engineRules DEFAULT_RULES
  simp only [List.cons_append, List.nil_append]
  unfold runRulesGo
  dsimp only
  rw [h1]
  unfold runRulesGo
  dsimp only
  rw [h2]
  unfold runRulesGo
  dsimp only
  rw [h3]
  unfold runRulesGo
  dsimp only
  rw [h4]
  unfold runRulesGo
  dsimp only
  by_cases hl : hasLimitNum sql
  · rw [if_pos hl]
    have : enforceLimit sql (max 1 limit) = none := by
      simp [enforceLimit, hl]
    rw [this]
    rfl
  · rw [if_neg hl]
    have hlf : hasLimitNum sql = false := by simpa using hl
    have : enforceLimit sql (max 1 limit) =
        some (appendLimitStr sql (max 1 limit)) := by
      simp [enforceLimit, hlf]
    rw [this]
    dsimp only
    rw [if_pos ⟨appendLimitStr_ne_empty sql _, appendLimitStr_ne_self sql _ hlf⟩]
    rfl

/-- C1 (amended): a rule result is accepted exactly when it is non-`None`,
non-empty and different from the current SQL; no re-parse of the rewritten
text takes place, and the returned SQL is never checked nor replaced by a
fallback.  Concretely, on any input the parser rejects, the four default
rules decline internally, yet the parse-free limit rule still fires whenever
the text lacks a `limit <number>` pattern: the engine then reports
`applied = ["limit"]` and returns the input with ` LIMIT n` appended — a
string the parser still rejects — and otherwise returns the input with no
applied rules. -/
theorem repair_apply_unparseable (p : String → Option SqlAst) (limit : Int)
    (sql : String) (hp : p sql = none)
    (hp2 : p (appendLimitStr sql (max 1 limit)) = none) :
    (hasLimitNum sql = true →
      engineApply limit (DEFAULT_RULES p) sql = ⟨sql, [], false, 1⟩) ∧
    (hasLimitNum sql = false →
      engineApply limit (DEFAULT_RULES p) sql =
        ⟨appendLimitStr sql (max 1 limit), ["limit"], false, 2⟩) := by
  have hpass := runPass_unparseable p limit sql hp
  have hpass2 := runPass_unparseable p limit (appendLimitStr sql (max 1 limit)) hp2
  rw [hasLimitNum_appendLimitStr, if_pos rfl] at hpass2
  constructor
  · intro hl
    rw [hl, if_pos rfl] at hpass
    unfold engineApply
    simp only [loopGo, if_true]
    simp [hpass, loopGo_false]
  · intro hl
    rw [hl] at hpass
    simp only [if_false, Bool.false_eq_true] at hpass
    unfold engineApply
    simp only [loopGo, if_true]
    simp [hpass, hpass2, loopGo_false]

/-- C1 witness: the amended behaviour at the concrete unparseable input
`(((` with the modelled parser and the default cap 50. -/
theorem repair_apply_unparseable_witness :
    parseModelO "(((" = none ∧
    parseModelO (appendLimitStr "(((" (max 1 50)) = none ∧
    hasLimitNum "(((" = false ∧
    engineApply 50 (DEFAULT_RULES parseModelO) "(((" =
      ⟨appendLimitStr "(((" (max 1 50), ["limit"], false, 2⟩ :=
  ⟨by decide, by decide, by decide,
   (repair_apply_unparseable parseModelO 50 "(((" (by decide) (by decide)).2
     (by decide)⟩

/-- C1 counterexample: the claim as stated is false.  On input `(((` (which
sqlglot rejects, as the parser model records) `RepairEngine.apply` reports
the applied rule `limit` and returns `((( LIMIT 50`, a string that still
fails to parse — `remaining` even reports `parse-error` — instead of falling
back to the original input. -/
theorem repair_apply_non_corruption_cex :
    repairApply parseModelE 50 (DEFAULT_RULES parseModelO) "(((" =
      ("((( LIMIT 50", ["parse-error"], ["limit"]) ∧
    parseModelO "((( LIMIT 50" = none ∧
    parseModelE "((( LIMIT 50" = .error "ParseError" ∧
    ("((( LIMIT 50" : String) ≠ "(((" :=
  ⟨rfl, by decide, rfl, by decide⟩

/-- C2 (amended): `RepairEngine.apply` is idempotent whenever its loop
reaches a fixed point, i.e. some pass accepts no rule change (the Python
`changed` flag is `False` on exit); the second call then runs a single
no-change pass and returns the same SQL with no applied rules.  (When all
three passes still change the SQL, the cap — not a fixed point — ends the
loop and a second call may apply further rules; see the counterexample.) -/
theorem repair_apply_idempotent_of_fixed_point (limit : Int)
    (rules : List Rule) (sql : String)
    (h : (engineApply limit rules sql).changed = false) :
    engineApply limit rules ((engineApply limit rules sql).cand) =
      ⟨(engineApply limit rules sql).cand, [], false, 1⟩ := by
  unfold engineApply at h ⊢
  have hfix := loopGo_fixed (engineRules limit rules) 3 sql [] h
  set R := engineRules limit rules with hR
  set c := (loopGo R 3 true sql []).cand with hc
  simp only [loopGo, if_true]
  simp [hfix, loopGo_false]

/-- C2 witness: the amended idempotence at the concrete input `a` (the first
call appends `LIMIT 50` in pass one, reaches a fixed point in pass two, and
a second call applies nothing). -/
theorem repair_apply_idempotent_witness :
    (engineApply 50 [] "a").changed = false ∧
    engineApply 50 [] ((engineApply 50 [] "a").cand) =
      ⟨(engineApply 50 [] "a").cand, [], false, 1⟩ :=
  ⟨by decide, repair_apply_idempotent_of_fixed_point 50 [] "a" (by decide)⟩

/-- C2 counterexample: the claim as stated is false.  With a `RepairRule`
that appends a character (the engine constructor accepts any rule list), the
first call on `a` changes the SQL in all three passes and stops at the cap;
calling `apply` again on the returned SQL applies further rules and returns
a different string. -/
theorem repair_apply_idempotence_cex :
    (engineApply 50 [("appendx", fun s => some (s ++ "x"))] "a").applied ≠ [] ∧
    (engineApply 50 [("appendx", fun s => some (s ++ "x"))]
        ((engineApply 50 [("appendx", fun s => some (s ++ "x"))] "a").cand)).applied
      ≠ [] ∧
    (engineApply 50 [("appendx", fun s => some (s ++ "x"))]
        ((engineApply 50 [("appendx", fun s => some (s ++ "x"))] "a").cand)).cand
      ≠ (engineApply 50 [("appendx", fun s => some (s ++ "x"))] "a").cand := by
  refine ⟨by decide, by decide, by decide⟩

/-- C3: `RepairEngine.apply` executes at most 3 outer passes for every input
and rule set, and from any loop state a pass in which no rule produces an
accepted change is the last one: exactly one further pass executes, after
which the loop exits with the candidate and applied list unchanged. -/
theorem repair_apply_pass_bound (limit : Int) (rules : List Rule)
    (sql : String) :
    (engineApply limit rules sql).passes ≤ 3 ∧
    (∀ (n : Nat) (cand : String) (acc : List String),
      (runPass (engineRules limit rules) cand).changed = false →
      loopGo (engineRules limit rules) (n + 1) true cand acc =
        ⟨cand, acc, false, 1⟩) := by
  constructor
  · exact loopGo_passes_le ..
  · intro n cand acc h
    have hpass := runPass_of_not_changed _ _ h
    simp only [loopGo, if_true]
    simp [hpass, loopGo_false]

/-- C3 witness: the pass bound and the early exit at the concrete input
`x limit 5`, on which the very first pass accepts no rule. -/
theorem repair_apply_pass_bound_witness :
    (engineApply 50 [] "x limit 5").passes ≤ 3 ∧
    loopGo (engineRules 50 []) 2 true "x limit 5" [] =
      ⟨"x limit 5", [], false, 1⟩ :=
  ⟨(repair_apply_pass_bound 50 [] "x limit 5").1,
   (repair_apply_pass_bound 50 [] "x limit 5").2 1 "x limit 5" [] (by decide)⟩

/-- C10: when `RepairEngine.apply` reports no applied rules, the returned SQL
is the input string itself — the candidate only ever changes in the same
step that records a rule name. -/
theorem repair_apply_frame (limit : Int) (rules : List Rule) (sql : String)
    (h : (engineApply limit rules sql).applied = []) :
    (engineApply limit rules sql).cand = sql := by
  unfold engineApply at h ⊢
  obtain ⟨suf, h1, h2⟩ := loopGo_applied_ex (engineRules limit rules) 3 true sql []
  apply h2
  rw [h] at h1
  simpa using h1.symm

/-- C10 witness: at `x limit 5` no rule applies and the SQL is returned
character for character. -/
theorem repair_apply_frame_witness :
    (engineApply 50 [] "x limit 5").applied = [] ∧
    (engineApply 50 [] "x limit 5").cand = "x limit 5" :=
  ⟨by decide, repair_apply_frame 50 [] "x limit 5" (by decide)⟩

/-- C9 (amended): `_enforce_limit` declines exactly when the SQL text already
matches the word-bounded pattern `limit <digits>`; otherwise it appends
` LIMIT max(1, cap)` to the text stripped of trailing whitespace and
semicolons, and re-applying the rule to its own output always declines. -/
theorem enforce_limit_amended (sql : String) (limit : Int) :
    (hasLimitNum sql = true → enforceLimit sql limit = none) ∧
    (hasLimitNum sql = false →
      enforceLimit sql limit = some (appendLimitStr sql limit) ∧
      enforceLimit (appendLimitStr sql limit) limit = none) := by
  constructor
  · intro h
    simp [enforceLimit, h]
  · intro h
    exact ⟨by simp [enforceLimit, h],
           by simp [enforceLimit, hasLimitNum_appendLimitStr]⟩

/-- C9 witness: the amended behaviour at `SELECT 1 FROM t` with cap 7. -/
theorem enforce_limit_amended_witness :
    hasLimitNum "SELECT 1 FROM t" = false ∧
    enforceLimit "SELECT 1 FROM t" 7 =
      some (appendLimitStr "SELECT 1 FROM t" 7) ∧
    enforceLimit (appendLimitStr "SELECT 1 FROM t" 7) 7 = none ∧
    appendLimitStr "SELECT 1 FROM t" 7 = "SELECT 1 FROM t LIMIT 7" :=
  ⟨by decide, ((enforce_limit_amended "SELECT 1 FROM t" 7).2 (by decide)).1,
   ((enforce_limit_amended "SELECT 1 FROM t" 7).2 (by decide)).2, by decide⟩

/-- C9 counterexample: the claim as stated is false.  With cap 0 the rule
appends `LIMIT 1`, not the caller-supplied `LIMIT 0` (the cap is clamped to
at least 1); and a query that already carries a LIMIT clause without a
numeric literal (`LIMIT ALL`) is not left unchanged — a second LIMIT is
appended, because the presence check is the textual pattern
`limit <digits>`. -/
theorem enforce_limit_cex :
    enforceLimit "SELECT 1 FROM t" 0 = some "SELECT 1 FROM t LIMIT 1" ∧
    enforceLimit "SELECT 1 FROM t" 0 ≠ some "SELECT 1 FROM t LIMIT 0" ∧
    enforceLimit "SELECT * FROM t LIMIT ALL" 7 =
      some "SELECT * FROM t LIMIT ALL LIMIT 7" := by
  refine ⟨by decide, by decide, by decide⟩

theorem pyPairLe_iff (x y : Nat × Nat) :
    pyPairLe x y = true ↔ x.1 < y.1 ∨ (x.1 = y.1 ∧ x.2 ≤ y.2) := by
  simp [pyPairLe]

/-- C5: candidate selection is the deterministic lexicographic comparison on
`(blockers, warnings)` ascending: strictly fewer blockers wins, warnings
break blocker ties, an exact tie keeps the first argument, and the result is
always one of the two inputs (the selection is a pure function, so repeated
calls on identical inputs select identically). -/
theorem candidate_selection_key (a b : Candidate) :
    (a.blockers < b.blockers → chooseCandidate a b = a) ∧
    (a.blockers = b.blockers → a.warnings ≤ b.warnings →
      chooseCandidate a b = a) ∧
    (b.blockers < a.blockers → chooseCandidate a b = b) ∧
    (a.blockers = b.blockers → b.warnings < a.warnings →
      chooseCandidate a b = b) ∧
    (chooseCandidate a b = a ∨ chooseCandidate a b = b) := by
  refine ⟨?_, ?_, ?_, ?_, ?_⟩
  · intro h
    have hc : pyPairLe (a.blockers, a.warnings) (b.blockers, b.warnings) = true :=
      (pyPairLe_iff _ _).mpr (Or.inl h)
    simp [chooseCandidate, hc]
  · intro h1 h2
    have hc : pyPairLe (a.blockers, a.warnings) (b.blockers, b.warnings) = true :=
      (pyPairLe_iff _ _).mpr (Or.inr ⟨h1, h2⟩)
    simp [chooseCandidate, hc]
  · intro h
    have hc : pyPairLe (a.blockers, a.warnings) (b.blockers, b.warnings) = false := by
      cases hb : pyPairLe (a.blockers, a.warnings) (b.blockers, b.warnings) with
      | false => rfl
      | true =>
        rcases (pyPairLe_iff _ _).mp hb with h' | ⟨h1, _⟩ <;> omega
    simp [chooseCandidate, hc]
  · intro h1 h2
    have hc : pyPairLe (a.blockers, a.warnings) (b.blockers, b.warnings) = false := by
      cases hb : pyPairLe (a.blockers, a.warnings) (b.blockers, b.warnings) with
      | false => rfl
      | true =>
        rcases (pyPairLe_iff _ _).mp hb with h' | ⟨h3, h4⟩ <;> omega
    simp [chooseCandidate, hc]
  · unfold chooseCandidate
    by_cases hc : pyPairLe (a.blockers, a.warnings) (b.blockers, b.warnings) = true
    · rw [if_pos hc]
      exact Or.inl rfl
    · rw [if_neg hc]
      exact Or.inr rfl

/-- C5 witness: the claim's concrete case — `(blockers=1, warnings=5)` loses
to `(blockers=0, warnings=50)`. -/
theorem candidate_selection_key_witness :
    chooseCandidate ⟨"A", 1, 5, [], []⟩ ⟨"B", 0, 50, [], []⟩ =
      ⟨"B", 0, 50, [], []⟩ :=
  (candidate_selection_key ⟨"A", 1, 5, [], []⟩ ⟨"B", 0, 50, [], []⟩).2.2.1
    (by decide)

/-- C7: with aliases `ab` and `ad` both within `_lev1` distance 1 of the
unknown qualifier `ac`, `_fix_alias_typos` does not decline: it rewrites
`ac` to whichever matching alias the Python set iteration yields first
(shown here for both iteration orders), contradicting the
decline-on-ambiguity behaviour the spec prescribes. -/
theorem alias_typo_ambiguity_bug :
    lev1 "ac" "ab" = true ∧ lev1 "ac" "ad" = true ∧
    "ac" ∉ (["ab", "ad"] : List String) ∧
    fixAliasTyposWith ["ab", "ad"]
        "SELECT ac.x FROM t AS ab JOIN u AS ad ON ab.i = ad.i" =
      some "SELECT ab.x FROM t AS ab JOIN u AS ad ON ab.i = ad.i" ∧
    fixAliasTyposWith ["ad", "ab"]
        "SELECT ac.x FROM t AS ab JOIN u AS ad ON ab.i = ad.i" =
      some "SELECT ad.x FROM t AS ab JOIN u AS ad ON ab.i = ad.i" := by
  refine ⟨by decide, by decide, by decide, by decide, by decide⟩

/-- C8 (amended): a table reference resolves against the catalog by exact
match, bare-name match, or qualified-entry suffix match, exactly as claimed;
but an unresolved reference does not produce an `unknown-table` issue
carrying the offending name: `validate_schema` appends the single bare tag
`schema-unknown-table` (stopping at the first unresolved reference), while
the raising checker `ensure_known_tables_cached` reports the sorted
offending names only in its exception message. -/
theorem validate_schema_amended (known refs : List String) :
    ((∀ r ∈ refs, resolvesRef (uniqFirst (known.map lowerStr)) r = true) →
      validateSchema known refs = [] ∧
      ensureKnownTablesCached known refs = none) ∧
    (∀ r ∈ refs, resolvesRef (uniqFirst (known.map lowerStr)) r = false →
      uniqFirst (known.map lowerStr) ≠ [] →
      (validateSchema known refs = ["schema-unknown-table"] ∧
       ∃ l, ensureKnownTablesCached known refs = some l ∧ r ∈ l)) := by
  constructor
  · intro hall
    unfold validateSchema ensureKnownTablesCached
    by_cases hk : uniqFirst (known.map lowerStr) = []
    · rw [if_pos hk, if_pos hk]
      exact ⟨rfl, rfl⟩
    · rw [if_neg hk, if_neg hk]
      have hany : refs.any
          (fun r => !resolvesRef (uniqFirst (known.map lowerStr)) r) = false :=
        List.any_eq_false.mpr (by intro x hx; simp [hall x hx])
      have hfil : refs.filter
          (fun r => !resolvesRef (uniqFirst (known.map lowerStr)) r) = [] :=
        List.filter_eq_nil_iff.mpr (by intro x hx; simp [hall x hx])
      rw [hany, hfil]
      simp
  · intro r hr hres hk
    unfold validateSchema ensureKnownTablesCached
    rw [if_neg hk, if_neg hk]
    have hbool : (!resolvesRef (uniqFirst (known.map lowerStr)) r) = true := by
      rw [hres]
      rfl
    have hany : refs.any
        (fun x => !resolvesRef (uniqFirst (known.map lowerStr)) x) = true :=
      List.any_eq_true.mpr ⟨r, hr, hbool⟩
    have hmem : r ∈ refs.filter
        (fun x => !resolvesRef (uniqFirst (known.map lowerStr)) x) :=
      List.mem_filter.mpr ⟨hr, hbool⟩
    have hne : refs.filter
        (fun x => !resolvesRef (uniqFirst (known.map lowerStr)) x) ≠ [] :=
      List.ne_nil_of_mem hmem
    rw [hany, if_neg hne]
    refine ⟨by simp, _, rfl, ?_⟩
    exact (mem_sortStrings _ _).mpr ((mem_uniqFirst _ _).mpr hmem)

/-- C8 witness: the amended behaviour at the claim's instance — catalog
`{orders, users}`, reference `order` (the table reference sqlglot extracts
from `SELECT * FROM order`). -/
theorem validate_schema_amended_witness :
    resolvesRef (uniqFirst ((["orders", "users"] : List String).map lowerStr))
      "order" = false ∧
    validateSchema ["orders", "users"] ["order"] = ["schema-unknown-table"] ∧
    ∃ l, ensureKnownTablesCached ["orders", "users"] ["order"] = some l ∧
      "order" ∈ l :=
  ⟨by decide,
   ((validate_schema_amended ["orders", "users"] ["order"]).2 "order"
      (by decide) (by decide) (by decide)).1,
   ((validate_schema_amended ["orders", "users"] ["order"]).2 "order"
      (by decide) (by decide) (by decide)).2⟩

/-- C8 counterexample: the claim as stated is false.  For catalog
`{orders, users}` and the reference `order`, `validate_schema` returns the
single bare tag `schema-unknown-table`: no returned issue has kind
`unknown-table` and none carries the offending name `order`. -/
theorem unknown_table_detail_cex :
    validateSchema ["orders", "users"] ["order"] = ["schema-unknown-table"] ∧
    "unknown-table" ∉ validateSchema ["orders", "users"] ["order"] ∧
    (∀ s ∈ validateSchema ["orders", "users"] ["order"],
      containsSub "order" s = false) := by
  refine ⟨by decide, by decide, by decide⟩

theorem lint_agg_mem (t : SqlAst) (sql : String)
    (h : "aggregate-without-group-by" ∈ lintSql (some t) sql) :
    (t.selectLists.headD []).any SelItem.containsAgg = true ∧
    t.hasGroup = false ∧
    (t.selectLists.headD []).any
      (fun e => !(e.containsAgg || e.isLiteral || e.isCast)) = true := by
  unfold lintSql at h
  dsimp only at h
  split_ifs at h <;>
    simp_all [mem_uniqFirst, List.mem_filter, Bool.and_eq_true,
      Bool.not_eq_true']

theorem lint_agg_not_mem (t : SqlAst) (sql : String)
    (hno : (t.selectLists.headD []).any
      (fun e => !(e.containsAgg || e.isLiteral || e.isCast)) = false) :
    "aggregate-without-group-by" ∉ lintSql (some t) sql := by
  intro h
  have := lint_agg_mem t sql h
  rw [hno] at this
  exact absurd this.2.2 (by simp)

theorem detect_agg_not_mem (t : SqlAst) (sql : String)
    (hAnon : t.anonFns.any (fun n => lowerStr n ∈ AGG_FUNCS) = false) :
    "aggregate-without-group-by" ∉ (detectOk t sql).map Prod.fst := by
  unfold detectOk
  simp only [hAnon, Bool.false_and]
  intro h
  simp only [List.map_append, List.mem_append] at h
  rcases h with (h | h) | h <;> split_ifs at h <;> simp_all

/-- C6: under parser-produced trees (sqlglot reserves `exp.Anonymous` for
unrecognised function names, so no anonymous node carries one of
`sum/count/avg/min/max`), the detectors emit `aggregate-without-group-by`
only when an aggregate call is present in the SELECT list, no GROUP BY
exists, and at least one non-aggregate, non-literal expression is also
selected; and a query whose every select expression contains an aggregate —
in particular a lone `SELECT SUM(x) FROM t` — is never flagged, by either
`detect` (repair.py) or `lint_sql` (sql_guard.py). -/
theorem aggregate_without_group_by_only_when (t : SqlAst) (sql : String)
    (hAnon : ∀ n ∈ t.anonFns, lowerStr n ∉ AGG_FUNCS) :
    (("aggregate-without-group-by" ∈ (detectOk t sql).map Prod.fst ∨
      "aggregate-without-group-by" ∈ lintSql (some t) sql) →
      ((∃ e ∈ t.selectLists.headD [], e.containsAgg = true) ∧
       t.hasGroup = false ∧
       (∃ e ∈ t.selectLists.headD [],
         e.containsAgg = false ∧ e.isLiteral = false))) ∧
    ((∀ e ∈ t.selectLists.headD [], e.containsAgg = true) →
      ("aggregate-without-group-by" ∉ (detectOk t sql).map Prod.fst ∧
       "aggregate-without-group-by" ∉ lintSql (some t) sql)) := by
  have hanyA : t.anonFns.any (fun n => lowerStr n ∈ AGG_FUNCS) = false :=
    List.any_eq_false.mpr (by intro n hn; simp [hAnon n hn])
  constructor
  · intro h
    rcases h with h | h
    · exact absurd h (detect_agg_not_mem t sql hanyA)
    · obtain ⟨h1, h2, h3⟩ := lint_agg_mem t sql h
      refine ⟨?_, h2, ?_⟩
      · obtain ⟨e, he, hpe⟩ := List.any_eq_true.mp h1
        exact ⟨e, he, hpe⟩
      · obtain ⟨e, he, hpe⟩ := List.any_eq_true.mp h3
        simp only [Bool.not_eq_true', Bool.or_eq_false_iff] at hpe
        exact ⟨e, he, hpe.1.1, hpe.1.2⟩
  · intro hall
    refine ⟨detect_agg_not_mem t sql hanyA, ?_⟩
    apply lint_agg_not_mem
    apply List.any_eq_false.mpr
    intro e he
    simp [hall e he]

/-- C6 witness: the concrete tree of `SELECT city, SUM(amount) FROM orders`
satisfies the parser-produced hypothesis, and the conclusions hold there. -/
theorem aggregate_without_group_by_only_when_witness :
    (∀ n ∈ astCitySum.anonFns, lowerStr n ∉ AGG_FUNCS) ∧
    ((("aggregate-without-group-by" ∈
        (detectOk astCitySum "SELECT city, SUM(amount) FROM orders").map
          Prod.fst ∨
      "aggregate-without-group-by" ∈
        lintSql (some astCitySum) "SELECT city, SUM(amount) FROM orders") →
      ((∃ e ∈ astCitySum.selectLists.headD [], e.containsAgg = true) ∧
       astCitySum.hasGroup = false ∧
       (∃ e ∈ astCitySum.selectLists.headD [],
         e.containsAgg = false ∧ e.isLiteral = false))) ∧
    ((∀ e ∈ astCitySum.selectLists.headD [], e.containsAgg = true) →
      ("aggregate-without-group-by" ∉
        (detectOk astCitySum "SELECT city, SUM(amount) FROM orders").map
          Prod.fst ∧
       "aggregate-without-group-by" ∉
        lintSql (some astCitySum) "SELECT city, SUM(amount) FROM orders"))) :=
  ⟨by decide,
   aggregate_without_group_by_only_when astCitySum
     "SELECT city, SUM(amount) FROM orders" (by decide)⟩

/-- C4: code bug.  `audit_sql_coverage` is supposed to return a structured
report and never raise, and its parse-failure branch indeed returns one; but
the group-by block (coverage.py lines 137-141) appends to `issues`, a name
defined nowhere in the module, so any SQL with an aggregate and a
non-grouped select dimension — here `SELECT city, SUM(amount) FROM orders`
with an empty question — raises `NameError` instead of returning a
`CoverageReport` (the variable is evidently meant to be `missing`, declared
at line 99). -/
theorem audit_coverage_name_error :
    auditSqlCoverage (fun _ => .ok astCitySum) ""
      "SELECT city, SUM(amount) FROM orders" = .error "NameError: issues" ∧
    hasAggregate astCitySum = true ∧
    selectDimsNotInGroupBy astCitySum ≠ [] ∧
    auditSqlCoverage (fun _ => .error "ParseError") "top 5 x" "(((" =
      .ok ⟨false, ["sql-parse-failed"], some 5, none, none, none⟩ :=
  ⟨rfl, by decide, by decide, rfl⟩

end Text2SQL
